import Mathlib

/-!
Verification of the block-chunking, merging, parsing and slide-attribution
engine of `src/utils/all_text_analyzer.py` (class `AllTextAnalyzer`).

The Python code is shallowly embedded: dictionaries become association
lists over a JSON-value type, Python integers become `Int` (or `Nat` where
the source can only produce digits), and the two page-reference regular
expressions are executed by a small backtracking matcher that mirrors the
semantics of Python `re.match` for the exact pattern shapes used by the
source.  External collaborators (the HuggingFace client and `json.loads`)
are passed in as function parameters.
-/

namespace PraiReader

/-! ## Python string primitives

`pyLower` models `str.lower` on the alphabets the source manipulates
(ASCII letters and the Russian Cyrillic block used by the page-word
patterns); other characters are untouched, as in Python. -/

def pyLower (c : Char) : Char :=
  if 65 ≤ c.toNat ∧ c.toNat ≤ 90 then Char.ofNat (c.toNat + 32)
  else if 1040 ≤ c.toNat ∧ c.toNat ≤ 1071 then Char.ofNat (c.toNat + 32)
  else if c.toNat = 1025 then Char.ofNat 1105
  else c

/-- Python `\s` (ASCII part): space, tab, newline, carriage return,
vertical tab, form feed. -/
def isPyWs (c : Char) : Bool :=
  c = ' ' || c = '\t' || c = '\n' || c = '\r' || c = '\x0b' || c = '\x0c'

/-- Python `str.strip()` on a char list. -/
def pyTrimL (cs : List Char) : List Char :=
  ((cs.dropWhile isPyWs).reverse.dropWhile isPyWs).reverse

/-- Python `str.strip()`. -/
def pyTrim (s : String) : String := String.mk (pyTrimL s.data)

/-- Python `\d` restricted to ASCII digits (48-57). -/
def isDigitC (c : Char) : Bool :=
  48 ≤ c.toNat ∧ c.toNat ≤ 57

/-- Python `\w` for the alphabets in play: ASCII alphanumerics plus
underscore plus Cyrillic letters. -/
def isWordChar (c : Char) : Bool :=
  c.isAlpha || isDigitC c || c = '_' ||
  ('А' ≤ c ∧ c ≤ 'я') || c = 'ё' || c = 'Ё'

/-- Numeric value of a nonempty ASCII digit string, as `int()` computes it
on the digit-only groups produced by the patterns below. -/
def digitsToNat (cs : List Char) : Nat :=
  cs.foldl (fun acc c => acc * 10 + (c.toNat - '0'.toNat)) 0

/-- Contiguous-substring test (`pat in text` in Python). -/
def isSubstrL (pat text : List Char) : Bool :=
  (List.range (text.length + 1)).any (fun i => (text.drop i).take pat.length = pat)

/-! ## BlockChunker: `_make_blocks` (lines 76-97)

The source walks the list two elements at a time (`slides[i]` a header,
`slides[i+1]` the slide text), accumulates `f"{header}\n{text}"` strings
into `current_block`, flushes when the block reaches `block_size` slides,
and joins each block with a blank line at the end.  `makeBlocksStruct`
is the loop up to (but not including) the final string join, so that a
block still exposes its list of slides; `makeBlocks` applies the join of
the source and is what the pipeline consumes. -/

def fmtSlide (p : String × String) : String := p.1 ++ "\n" ++ p.2

/-- The (header, text) pairs the loop of `_make_blocks` walks: indices
(0,1), (2,3), ...; a dangling element without a partner is skipped by the
`if i + 1 >= len(slides): break` guard. -/
def pairUp : List String → List (String × String)
  | h :: t :: rest => (h, t) :: pairUp rest
  | _ => []

/-- The loop body of `_make_blocks`: `cur` is `current_block`, `c` is
`count`. -/
def makeBlocksGo (blockSize : Nat) : List String → List String → Nat → List (List String)
  | h :: t :: rest, cur, c =>
    let cur2 := cur ++ [fmtSlide (h, t)]
    if c + 1 ≥ blockSize then
      cur2 :: makeBlocksGo blockSize rest [] 0
    else
      makeBlocksGo blockSize rest cur2 (c + 1)
  | _, cur, _ => if cur.isEmpty then [] else [cur]

/-- `_make_blocks` with each block kept as its list of slide strings. -/
def makeBlocksStruct (slides : List String) (blockSize : Nat) : List (List String) :=
  makeBlocksGo blockSize slides [] 0

/-- `_make_blocks` as the source returns it: each block joined with a
blank line. -/
def makeBlocks (slides : List String) (blockSize : Nat) : List String :=
  (makeBlocksStruct slides blockSize).map (String.intercalate "\n\n")

/-- A sequence of slides, laid out as the alternating header/text list the
chunker receives. -/
def interleave (ps : List (String × String)) : List String :=
  ps.flatMap (fun p => [p.1, p.2])

/-! ## JSON values and Python dictionaries

Python dictionaries preserve insertion order; assignment to an existing
key keeps its position, a fresh key is appended.  A dictionary is embedded
as an association list and JSON numbers produced for the score fields as
integers (the scores the schema asks for are integral; theorems that touch
numeric or list fields carry a well-typedness hypothesis marking exactly
the dictionaries on which the Python code would not raise `TypeError`). -/

inductive JValue where
  | jNull
  | jBool (b : Bool)
  | jInt (n : Int)
  | jStr (s : String)
  | jArr (xs : List JValue)
  | jObj (fields : List (String × JValue))

abbrev Dict := List (String × JValue)

/-- `d[k]` lookup (`None`-free: `Option` marks the missing-key case). -/
def dGet (d : Dict) (k : String) : Option JValue :=
  (d.find? (fun p => p.1 = k)).map (fun p => p.2)

/-- `d[k] = v`: replace in place if the key exists, append otherwise. -/
def dSet : Dict → String → JValue → Dict
  | [], k, v => [(k, v)]
  | (k0, v0) :: rest, k, v =>
    if k0 = k then (k, v) :: rest else (k0, v0) :: dSet rest k v

/-- `d.setdefault(k, v)`. -/
def dSetDefault (d : Dict) (k : String) (v : JValue) : Dict :=
  if (dGet d k).isSome then d else d ++ [(k, v)]

/-- The list stored at `k` (where the source does `.extend` /
iterates, its value is a JSON array; a missing key defaults to `[]`
exactly as `d.get(k, [])` does). -/
def getArr : Option JValue → List JValue
  | some (.jArr xs) => xs
  | _ => []

/-- The integer stored in an optional value, with the `d.get(k, 0)`
default for a missing key. -/
def getIntD : Option JValue → Int → Int
  | some (.jInt n), _ => n
  | _, dflt => dflt

/-- Decidable form of: the value is present and an integer. -/
def isIntVal : Option JValue → Bool
  | some (.jInt _) => true
  | _ => false

/-- Decidable form of: the value is present and an array. -/
def isArrVal : Option JValue → Bool
  | some (.jArr _) => true
  | _ => false

/-- Decidable form of: the value is present and an object
(`isinstance(data, dict)` on a parse result). -/
def isObjVal : Option JValue → Bool
  | some (.jObj _) => true
  | _ => false

/-! ## ResultMerger: `_merge_block_results` (lines 142-154) -/

def listKeys : List String := ["strengths", "weaknesses", "recommendations"]

def scoreKeys : List String := ["clarity_score", "overall_quality_score"]

/-- `int(round(s / 2))` for an integer `s`: Python 3 `round` ties go to
the even neighbour (banker rounding); for integral halves the float
division is exact, so the function below is the exact value. -/
def pyRound2 (s : Int) : Int :=
  if s % 2 = 0 then s / 2
  else
    let k := (s - 1) / 2
    if k % 2 = 0 then k else k + 1

/-- One list key of the merge step: `combined.setdefault(key, [])` then
`combined[key].extend(r.get(key, []))`. -/
def mergeListStep (r acc : Dict) (k : String) : Dict :=
  let acc2 := dSetDefault acc k (.jArr [])
  dSet acc2 k (.jArr (getArr (dGet acc2 k) ++ getArr (dGet r k)))

/-- First loop of the merge step, over the three list keys. -/
def mergeListPhase (c r : Dict) : Dict :=
  listKeys.foldl (mergeListStep r) c

/-- One score key of the merge step:
`combined[key] = int(round((combined.get(key, 0) + r.get(key, 0)) / 2))`. -/
def mergeScoreStep (r acc : Dict) (k : String) : Dict :=
  dSet acc k (.jInt (pyRound2 (getIntD (dGet acc k) 0 + getIntD (dGet r k) 0)))

/-- Second loop of the merge step, over the two score keys. -/
def mergeScorePhase (c r : Dict) : Dict :=
  scoreKeys.foldl (mergeScoreStep r) c

/-- One iteration of `for r in results[1:]`. -/
def mergeStep (c r : Dict) : Dict :=
  mergeScorePhase (mergeListPhase c r) r

/-- `_merge_block_results`: seed with the first result, fold the rest
(an empty input yields the empty dictionary, a single result is returned
unchanged). -/
def mergeBlockResults : List Dict → Dict
  | [] => []
  | r :: rest => rest.foldl mergeStep r

/-! ## Python `str()` of a JSON value

`_attach_slide_numbers_if_missing` applies `str(it).strip()` to every
finding that is not an attributed dictionary.  For a string this is the
string itself; for other values Python falls back to `repr`.  The `repr`
of containers is modelled in its usual printed form; escape sequences for
control characters inside quoted strings are not modelled (no theorem
depends on the `repr` of a container or of an exotic string). -/

def quoteChar : Char := Char.ofNat 39

/-- Python `repr` of a string: single-quoted with backslash and quote
escapes, switching to double quotes when the content holds a single quote
but no double quote. -/
def pyReprStr (s : String) : String :=
  let hasSq := s.data.contains quoteChar
  let hasDq := s.data.contains '"'
  let q : Char := if hasSq ∧ ¬ hasDq then '"' else quoteChar
  let body := s.data.flatMap (fun c =>
    if c = '\\' then ['\\', '\\']
    else if c = q then ['\\', q]
    else [c])
  String.mk (q :: body ++ [q])

mutual

def pyRepr : JValue → String
  | .jNull => "None"
  | .jBool true => "True"
  | .jBool false => "False"
  | .jInt n => toString n
  | .jStr s => pyReprStr s
  | .jArr xs => "[" ++ pyReprList xs ++ "]"
  | .jObj fs => "\x7b" ++ pyReprFields fs ++ "\x7d"

def pyReprList : List JValue → String
  | [] => ""
  | [x] => pyRepr x
  | x :: y :: rest => pyRepr x ++ ", " ++ pyReprList (y :: rest)

def pyReprFields : List (String × JValue) → String
  | [] => ""
  | [(k, v)] => pyReprStr k ++ ": " ++ pyRepr v
  | (k, v) :: p :: rest => pyReprStr k ++ ": " ++ pyRepr v ++ ", " ++ pyReprFields (p :: rest)

end

/-- Python `str()`. -/
def pyStr : JValue → String
  | .jStr s => s
  | v => pyRepr v

/-! ## ResponseParser: `_try_parse_json` (lines 156-173)

`json.loads` is an external collaborator; it enters as a function
parameter `parse` whose `none` result stands for `JSONDecodeError`.  The
fence stripping is the pair of `re.sub` calls of lines 159-160, executed
left to right exactly as the regular expressions do. -/

def btick : Char := Char.ofNat 96

/-- One `re.sub` pass.  With `withJsonWs = true` this is
`re.sub(r'```(?:json)?\s*', '', t)`: at each occurrence of three backticks
the engine greedily also consumes a literal `json` when present and then a
maximal whitespace run; with `withJsonWs = false` it is the plain
`re.sub(r'```', '', t)`.  Scanning resumes after the removed match, as
`re.sub` does with non-overlapping matches. -/
def stripFencePassF (withJsonWs : Bool) : Nat → List Char → List Char
  | _, [] => []
  | 0, cs => cs
  | fuel + 1, c :: cs =>
    if c = btick ∧ cs.take 2 = [btick, btick] then
      let rest := cs.drop 2
      if withJsonWs then
        let rest2 := if rest.take 4 = ['j', 's', 'o', 'n'] then rest.drop 4 else rest
        stripFencePassF withJsonWs fuel (rest2.dropWhile isPyWs)
      else
        stripFencePassF withJsonWs fuel rest
    else
      c :: stripFencePassF withJsonWs fuel cs

/-- One pass with fuel = text length; every step consumes at least one
character and one unit of fuel, so the fuel-exhausted branch is
unreachable. -/
def stripFencePass (withJsonWs : Bool) (cs : List Char) : List Char :=
  stripFencePassF withJsonWs cs.length cs

/-- The fence stripping of lines 159-160. -/
def stripFences (s : String) : String :=
  String.mk (stripFencePass false (stripFencePass true s.data))

/-- `expected_keys` of line 163 (a Python set; held as a list, checked by
membership). -/
def requiredKeys : List String :=
  ["main_topic", "goal", "summary", "strengths", "weaknesses",
   "recommendations", "structure_quality", "clarity_score",
   "style", "audience_level", "quality_score", "final_verdict"]

def dKeys (d : Dict) : List String := d.map (fun p => p.1)

/-- `expected_keys.issubset(set(data.keys()))`. -/
def hasRequiredKeys (d : Dict) : Bool :=
  requiredKeys.all (fun k => (dKeys d).contains k)

/-- `data[key] = [str(x).strip() for x in data.get(key, [])][:cap]`. -/
def coerceListField (d : Dict) (k : String) (cap : Nat) : Dict :=
  dSet d k (.jArr (((getArr (dGet d k)).map (fun x => .jStr (pyTrim (pyStr x)))).take cap))

/-- `_try_parse_json`; `parse` is `json.loads`, returning `none` where the
library raises `JSONDecodeError`. -/
def tryParseJson (parse : String → Option JValue) (text : String) : Option Dict :=
  if text = "" then none
  else
    match parse (stripFences text) with
    | some (.jObj fields) =>
      if hasRequiredKeys fields then
        some (coerceListField (coerceListField (coerceListField
          fields "strengths" 5) "weaknesses" 20) "recommendations" 20)
      else none
    | _ => none

/-! ## A small backtracking matcher

The two anchored patterns of `_attach_slide_numbers_if_missing`,

  `Слайд\s*(\d+)\s*[:\-–]\s*(.+)`   and
  `Слайды\s*([\d,\s–\-]+)\s*[:\-–]\s*(.+)`   (both `re.IGNORECASE`),

are sequences of five element shapes: a case-insensitive literal, a
greedy `cls*`, a greedy capturing `(cls+)`, a single separator class, and
a greedy capturing `(.+)` whose dot excludes the newline.  The matcher
below executes such sequences with the same greedy-with-backtracking
order as the `re` engine: each element enumerates its candidate splits
longest first and the first completion of the remaining pattern wins.
`re.match` anchors at the start but does not require consuming the whole
string. -/

inductive RElem where
  | lit (w : List Char)
  | starCls (f : Char → Bool)
  | grpPlus (f : Char → Bool)
  | oneCls (f : Char → Bool)
  | grpDotPlus

/-- Candidate (captured?, rest) splits of one element against a text, in
the order the backtracking engine tries them. -/
def elemSplits : RElem → List Char → List (Option (List Char) × List Char)
  | .lit w, cs =>
    if (cs.take w.length).map pyLower = w.map pyLower then [(none, cs.drop w.length)]
    else []
  | .starCls f, cs =>
    let run := (cs.takeWhile f).length
    (List.range (run + 1)).reverse.map (fun k => (none, cs.drop k))
  | .grpPlus f, cs =>
    let run := (cs.takeWhile f).length
    ((List.range (run + 1)).reverse.filter (fun k => 1 ≤ k)).map
      (fun k => (some (cs.take k), cs.drop k))
  | .oneCls f, cs =>
    match cs with
    | c :: rest => if f c then [(none, rest)] else []
    | [] => []
  | .grpDotPlus, cs =>
    let run := (cs.takeWhile (fun c => c ≠ '\n')).length
    ((List.range (run + 1)).reverse.filter (fun k => 1 ≤ k)).map
      (fun k => (some (cs.take k), cs.drop k))

/-- Match a pattern sequence at the start of a text, returning the list
of captured groups of the first (backtracking order) match: each element
offers its candidate splits greedily and the first completion of the
remaining pattern wins. -/
def matchSeq : List RElem → List Char → Option (List (List Char))
  | [], _ => some []
  | e :: es, cs =>
    (elemSplits e cs).findSome? (fun pr =>
      match matchSeq es pr.2, pr.1 with
      | some caps, some cap => some (cap :: caps)
      | some caps, none => some caps
      | none, _ => none)

def sepCls (c : Char) : Bool := c = ':' || c = '-' || c = '–'

def listCls (c : Char) : Bool :=
  isDigitC c || c = ',' || isPyWs c || c = '–' || c = '-'

/-- `Слайд\s*(\d+)\s*[:\-–]\s*(.+)` with `re.IGNORECASE`. -/
def singlePagePattern : List RElem :=
  [.lit "Слайд".data, .starCls isPyWs, .grpPlus isDigitC,
   .starCls isPyWs, .oneCls sepCls, .starCls isPyWs, .grpDotPlus]

/-- `Слайды\s*([\d,\s–\-]+)\s*[:\-–]\s*(.+)` with `re.IGNORECASE`. -/
def multiPagePattern : List RElem :=
  [.lit "Слайды".data, .starCls isPyWs, .grpPlus listCls,
   .starCls isPyWs, .oneCls sepCls, .starCls isPyWs, .grpDotPlus]

/-- The `re.match` of line 198: page number and the rest of the line. -/
def matchSlideSingle (s : String) : Option (Nat × String) :=
  match matchSeq singlePagePattern s.data with
  | some [num, restText] => some (digitsToNat num, String.mk restText)
  | _ => none

/-- The `re.match` of line 203: raw list part and the rest of the line. -/
def matchSlideMulti (s : String) : Option (String × String) :=
  match matchSeq multiPagePattern s.data with
  | some [listPart, restText] => some (String.mk listPart, String.mk restText)
  | _ => none

/-! ## `_parse_slide_list` (lines 258-280) -/

/-- `re.split(r'[,\s]+', s)`: fields between maximal separator runs,
keeping a leading/trailing empty field as `re.split` does. -/
def splitRunsGo (f : Char → Bool) (cur : List Char) (prevSep : Bool) :
    List Char → List (List Char)
  | [] => [cur.reverse]
  | c :: cs =>
    if f c then
      if prevSep then splitRunsGo f [] true cs
      else cur.reverse :: splitRunsGo f [] true cs
    else splitRunsGo f (c :: cur) false cs

def splitRuns (f : Char → Bool) (cs : List Char) : List (List Char) :=
  splitRunsGo f [] false cs

/-- `re.split(r'[–\-]', p)`: split at every single separator char. -/
def splitEvery (f : Char → Bool) (cur : List Char) : List Char → List (List Char)
  | [] => [cur.reverse]
  | c :: cs =>
    if f c then cur.reverse :: splitEvery f [] cs
    else splitEvery f (c :: cur) cs

/-- Python `int(s)`: optional surrounding whitespace, optional sign,
decimal digits (digit-group underscores are not modelled; no input in
this development contains them). -/
def pyIntStr? (s : String) : Option Int :=
  match pyTrimL s.data with
  | [] => none
  | c :: rest =>
    let signed : Bool × List Char :=
      if c = '-' then (true, rest)
      else if c = '+' then (false, rest)
      else (false, c :: rest)
    if signed.2 ≠ [] ∧ signed.2.all isDigitC then
      some ((if signed.1 then -1 else 1) * (digitsToNat signed.2 : Int))
    else none

/-- `list(range(a, b + 1))`. -/
def rangeIncl (a b : Int) : List Int :=
  if a ≤ b then (List.range (b + 1 - a).toNat).map (fun i : Nat => a + (i : Int)) else []

def isDashChar (c : Char) : Bool := c = '–' || c = '-'

/-- The body of the token loop of `_parse_slide_list`: the integers one
token contributes (an unparsable token is skipped by the
`except: continue`). -/
def tokenInts (p : String) : List Int :=
  if p = "" then []
  else if p.data.any isDashChar then
    match splitEvery isDashChar [] p.data with
    | b0 :: b1 :: _ =>
      match pyIntStr? (String.mk b0), pyIntStr? (String.mk b1) with
      | some a, some b => rangeIncl a b
      | _, _ => []
    | _ => []
  else
    match pyIntStr? p with
    | some n => [n]
    | none => []

/-- Insert into a strictly-sorted list, dropping duplicates. -/
def insSorted (x : Int) : List Int → List Int
  | [] => [x]
  | y :: ys =>
    if x < y then x :: y :: ys
    else if x = y then y :: ys
    else y :: insSorted x ys

/-- `sorted(set(nums))`. -/
def sortedDedup (l : List Int) : List Int :=
  l.foldl (fun acc x => insSorted x acc) []

/-- The tokens of `re.split(r'[,\s]+', s.strip())`. -/
def slideListTokens (s : String) : List String :=
  (splitRuns (fun c => c = ',' || isPyWs c) (pyTrimL s.data)).map String.mk

/-- `_parse_slide_list`. -/
def parseSlideList (s : String) : List Int :=
  sortedDedup ((slideListTokens s).flatMap tokenInts)

/-! ## `_split_into_slides` (lines 222-256) and the slide-marker splits

Both `re.split(r'(--- SLIDE \d+ ---)', ...)` (line 47) and
`re.split(r'--- SLIDE (\d+) ---', ...)` (line 226) scan for the same
marker; they differ only in what the capture group emits between
fields. -/

structure Slide where
  num : Int
  text : String

/-- Leftmost marker match at the head of the text:
`(digits, rest after the marker)`.  The greedy `\d+` takes the maximal
digit run; backtracking cannot shorten it because the following literal
starts with a space. -/
def markerAt? (cs : List Char) : Option (List Char × List Char) :=
  if cs.take 10 = "--- SLIDE ".data then
    let ds := (cs.drop 10).takeWhile isDigitC
    if ds ≠ [] ∧ (cs.drop (10 + ds.length)).take 4 = " ---".data then
      some (ds, cs.drop (14 + ds.length))
    else none
  else none

/-- The `re.split` scanner; `emitWhole` selects whether the separator
field carries the whole marker (line 47) or just the digits (line 226).
Fuel = text length; every step consumes at least one character (a marker
at least fifteen), so the fuel-exhausted branch is unreachable. -/
def splitGoF (emitWhole : Bool) : Nat → List Char → List Char → List String
  | _, field, [] => [String.mk field.reverse]
  | 0, field, _ => [String.mk field.reverse]
  | fuel + 1, field, c :: cs =>
    match markerAt? (c :: cs) with
    | some (ds, rest) =>
      String.mk field.reverse ::
        (if emitWhole then String.mk ("--- SLIDE ".data ++ ds ++ " ---".data)
         else String.mk ds) ::
        splitGoF emitWhole fuel [] rest
    | none => splitGoF emitWhole fuel (c :: field) cs

def reSplitSlideMarkerFull (s : String) : List String :=
  splitGoF true s.data.length [] s.data

def reSplitSlideMarkerNum (s : String) : List String :=
  splitGoF false s.data.length [] s.data

def pyLowerStr (s : String) : String := String.mk (s.data.map pyLower)

/-- Python `str.splitlines` restricted to `\r\n`, `\r`, `\n`. -/
def pySplitLinesGo (field : List Char) : List Char → List (List Char)
  | [] => if field.isEmpty then [] else [field.reverse]
  | '\r' :: '\n' :: rest => field.reverse :: pySplitLinesGo [] rest
  | '\r' :: rest => field.reverse :: pySplitLinesGo [] rest
  | '\n' :: rest => field.reverse :: pySplitLinesGo [] rest
  | c :: rest => pySplitLinesGo (c :: field) rest

def pySplitLines (s : String) : List String :=
  if s.data.isEmpty then [] else (pySplitLinesGo [] s.data).map String.mk

/-- The `while i + 1 < len(parts)` walk of `_split_into_slides`.  One
step consumes `parts[i] parts[i+1] parts[i+2]` and advances by three.
When `int(parts[i+1])` fails inside the guarded branch
(`parts[i].strip() == ""`) the `ValueError` is uncaught and propagates
(`none`); in the other branch the `try` turns it into a `break`, keeping
the slides collected so far. -/
def walkParts (acc : List Slide) : List String → Option (List Slide)
  | p0 :: p1 :: t :: rest2 =>
    (match pyIntStr? p1 with
     | none => if pyTrim p0 = "" then none else some acc
     | some n => walkParts (acc ++ [⟨n, pyLowerStr t⟩]) rest2)
  | _ :: p1 :: [] =>
    (match pyIntStr? p1 with
     | none => some acc
     | some n => some (acc ++ [⟨n, pyLowerStr ""⟩]))
  | _ => some acc

/-- `_split_into_slides`; `none` is the uncaught `ValueError` of the
walk (swallowed later by the `try` of `analyze_full_text`).  Note the
`len(parts) < 3` fallback does not lower-case the text while the other
branches do, exactly as in the source. -/
def splitIntoSlides? (fullText : String) : Option (List Slide) :=
  let parts := reSplitSlideMarkerNum fullText
  if parts.length < 3 then
    some [⟨1, String.intercalate "\n" (pySplitLines fullText)⟩]
  else
    match walkParts [] parts with
    | none => none
    | some [] => some [⟨1, pyLowerStr fullText⟩]
    | some slides => some slides

/-! ## `_map_text_to_slides_by_content` (lines 282-316) -/

/-- Maximal `\w+` runs (`re.findall(r'\w+', s)`). -/
def wordRunsGo (cur : List Char) : List Char → List (List Char)
  | [] => if cur.isEmpty then [] else [cur.reverse]
  | c :: cs =>
    if isWordChar c then wordRunsGo (c :: cur) cs
    else if cur.isEmpty then wordRunsGo [] cs
    else cur.reverse :: wordRunsGo [] cs

def wordRuns (cs : List Char) : List (List Char) := wordRunsGo [] cs

/-- `[w for w in re.findall(r'\w+', text.lower()) if len(w) > 2]`. -/
def sigWords (text : String) : List String :=
  (wordRuns (pyLowerStr text).data).filterMap
    (fun w => if 2 < w.length then some (String.mk w) else none)

/-- `[" ".join(words[i:i+n]) for i in range(0, len(words)-n+1)]` (the
loop only reaches `n ≤ len(words)`, where the range is nonempty). -/
def ngramsOf (words : List String) (n : Nat) : List String :=
  if n ≤ words.length then
    (List.range (words.length - n + 1)).map
      (fun i => String.intercalate " " ((words.drop i).take n))
  else []

/-- `range(min(6, len(words)), 2, -1)`. -/
def nWindowSizes (wc : Nat) : List Nat :=
  (List.range' 3 (min 6 wc - 2)).reverse

def slideContains (s : Slide) (ng : String) : Bool := isSubstrL ng.data s.text.data

/-- The n-gram scan: window sizes long to short, n-grams in position
order, slides in list order; the first containment wins. -/
def ngramScan (words : List String) (slides : List Slide) : Option Int :=
  (nWindowSizes words.length).findSome? (fun n =>
    (ngramsOf words n).findSome? (fun ng =>
      (slides.find? (fun s => slideContains s ng)).map (fun s => s.num)))

/-- `(s.num, match_count)` per slide, in slide order. -/
def overlapScores (words : List String) (slides : List Slide) : List (Int × Nat) :=
  slides.map (fun s =>
    let slideWords := wordRuns s.text.data
    (s.num, (words.filter (fun w => slideWords.contains w.data)).length))

/-- `[num for num, cnt in sorted(scores, key=lambda x: -x[1]) if cnt > 0]`
(`sorted` is stable, so ties keep slide order, as `mergeSort` does). -/
def overlapPhase (words : List String) (slides : List Slide) : List Int :=
  (((overlapScores words slides).mergeSort (fun a b => b.2 ≤ a.2)).filter
    (fun p => 0 < p.2)).map (fun p => p.1)

/-- The scan order of the n-gram phase, written as one flattened priority
list: window sizes from min(6, word count) down to 3, n-grams of each
size in position order, slides in list order; the attribution is the
first triple whose slide text contains the n-gram. -/
def ngramScanSpec (words : List String) (slides : List Slide) : Option Int :=
  ((nWindowSizes words.length).flatMap (fun n =>
    (ngramsOf words n).flatMap (fun ng =>
      slides.map (fun s => (ng, s))))).findSome?
    (fun pr => if slideContains pr.2 pr.1 then some pr.2.num else none)

/-- `_map_text_to_slides_by_content` (`positive[:3]` and the empty
answer collapse into one `take 3`). -/
def mapTextToSlidesByContent (text : String) (slides : List Slide) : List Int :=
  let words := sigWords text
  if words.isEmpty then []
  else
    match ngramScan words slides with
    | some num => [num]
    | none => (overlapPhase words slides).take 3

/-! ## `_attach_slide_numbers_if_missing` (lines 178-220) -/

/-- `isinstance(it, dict) and ("slide" in it or "slides" in it)`. -/
def isAttributedItem : JValue → Bool
  | .jObj fields => fields.any (fun p => p.1 = "slide" || p.1 = "slides")
  | _ => false

/-- The per-finding body of the inner loop: pass through an attributed
dict, else try the single-page pattern, the multi-page pattern, then the
content mapping, else keep the (stripped) string. -/
def processItem (slides : List Slide) (it : JValue) : JValue :=
  if isAttributedItem it then it
  else
    let s := pyTrim (pyStr it)
    match matchSlideSingle s with
    | some (n, restText) =>
      .jObj [("slide", .jInt (n : Int)), ("text", .jStr (pyTrim restText))]
    | none =>
      match matchSlideMulti s with
      | some (listPart, restText) =>
        .jObj [("slides", .jArr ((parseSlideList listPart).map .jInt)),
               ("text", .jStr (pyTrim restText))]
      | none =>
        match mapTextToSlidesByContent s slides with
        | [] => .jStr s
        | [n] => .jObj [("slide", .jInt n), ("text", .jStr s)]
        | ns => .jObj [("slides", .jArr (ns.map .jInt)), ("text", .jStr s)]

/-- The two-key rewrite over a copy of `combined`
(`combined[key] = processed`).  The loop reads `combined.get(key, [])`
from the dictionary it mutates; folding over the accumulator matches
that, because the two keys are distinct. -/
def attachCore (combined : Dict) (slides : List Slide) : Dict :=
  (["weaknesses", "recommendations"] : List String).foldl (fun acc k =>
    dSet acc k (.jArr ((getArr (dGet acc k)).map (processItem slides)))) combined

/-- `_attach_slide_numbers_if_missing`; `none` propagates the uncaught
`ValueError` of `_split_into_slides`. -/
def attachSlideNumbersIfMissing? (combined : Dict) (fullText : String) : Option Dict :=
  (splitIntoSlides? fullText).map (attachCore combined)

/-! ## `analyze_full_text` (lines 36-73) and the fallback

The backend is the pair of parameters `llm` (the text `_call_chat_model`
returns, already whitespace-collapsed — on an exception the source turns
it into `""`) and `parse` (`json.loads`).  `initialized` is
`self.models_initialized and self.client`. -/

def replaceCRLFGo : List Char → List Char
  | '\r' :: '\n' :: rest => '\n' :: replaceCRLFGo rest
  | c :: rest => c :: replaceCRLFGo rest
  | [] => []

/-- `str(text or "").replace("\r\n", "\n").strip()`. -/
def normalizeFullText (text : String) : String :=
  pyTrim (String.mk (replaceCRLFGo text.data))

/-- The constant dictionary of `_fallback_summary_from_text` (both its
arguments are ignored). -/
def fallbackSummary : Dict :=
  [("main_topic", .jStr "Тема не определена"),
   ("goal", .jStr "Цель не определена"),
   ("summary", .jStr "Структурный анализ выполнен частично"),
   ("strengths", .jArr [.jStr "Стандартная структура слайдов"]),
   ("weaknesses", .jArr [.jObj [("slide", .jInt 1), ("text", .jStr "Перегруженность текста")]]),
   ("recommendations", .jArr [.jObj [("slide", .jInt 1), ("text", .jStr "Уменьшить количество текста")]]),
   ("structure_quality", .jStr "средняя"),
   ("clarity_score", .jInt 5),
   ("style", .jStr "общий"),
   ("audience_level", .jStr "общая"),
   ("quality_score", .jInt 5),
   ("final_verdict", .jStr "Fallback")]

/-- `_build_prompt_for_structural_analysis`. -/
def buildPrompt (text : String) : String :=
  "Ты — эксперт по презентациям. Проанализируй структуру презентации (только текст и заголовки). " ++
  "Текст содержит все слайды, разделённые \x27--- SLIDE N ---\x27.\n\n" ++
  "Верни строго JSON с полями:\n" ++
  "- strengths: сильные стороны структуры презентации\n" ++
  "- weaknesses: слабые места (укажи номера слайдов с проблемами, например \x27Слайд 2: ...\x27)\n" ++
  "- recommendations: рекомендации по улучшению структуры с номерами слайдов\n" ++
  "Остальные поля: main_topic, goal, summary, structure_quality, clarity_score, style, " ++
  "audience_level, overall_quality_score, final_verdict.\n" ++
  "Не анализируй содержание текста, не добавляй markdown или code-blocks.\n" ++
  "\n\n" ++ text

/-- `analyze_full_text`: split, chunk, per-block generate/parse with the
fallback, merge, then the guarded attribution (`try/except` of lines
67-71 returns the merged result unchanged when attribution raises). -/
def analyzeFullText (initialized : Bool) (parse : String → Option JValue)
    (llm : String → String) (slidesPerBlock : Nat) (fullText : String) : Dict :=
  let cleanText := normalizeFullText fullText
  if ¬ initialized then fallbackSummary
  else
    let slideTexts := reSplitSlideMarkerFull cleanText
    let blocks := makeBlocks slideTexts slidesPerBlock
    let blockResults := blocks.map (fun b =>
      match tryParseJson parse (llm (buildPrompt b)) with
      | some parsed => parsed
      | none => fallbackSummary)
    let combined := mergeBlockResults blockResults
    match attachSlideNumbersIfMissing? combined cleanText with
    | some d => d
    | none => combined

/-! # Theorems -/

theorem pairUp_interleave (ps : List (String × String)) : pairUp (interleave ps) = ps := by
  induction ps with
  | nil => rfl
  | cons p rest ih => simp [interleave, pairUp] at ih ⊢; simpa using ih

theorem makeBlocksGo_flatten (B : Nat) (l : List String) :
    ∀ (cur : List String) (c : Nat),
    (makeBlocksGo B l cur c).flatten = cur ++ (pairUp l).map fmtSlide := by
  induction l using pairUp.induct with
  | case1 h t rest ih =>
    intro cur c
    simp only [makeBlocksGo]
    split
    · simp [ih, pairUp]
    · simp [ih, pairUp]
  | case2 t hne =>
    intro cur c
    rcases t with _ | ⟨a, _ | ⟨b, rest⟩⟩
    · by_cases hc : cur.isEmpty <;>
        simp_all [makeBlocksGo, pairUp, List.isEmpty_iff]
    · by_cases hc : cur.isEmpty <;>
        simp_all [makeBlocksGo, pairUp, List.isEmpty_iff]
    · exact absurd rfl (hne a b rest)

theorem makeBlocksGo_sizes (B : Nat) (hB : 1 ≤ B) (l : List String) :
    ∀ (cur : List String) (c : Nat), cur.length = c → c < B →
    ∀ b ∈ makeBlocksGo B l cur c, b.length ≤ B := by
  induction l using pairUp.induct with
  | case1 h t rest ih =>
    intro cur c hlen hlt b hb
    simp only [makeBlocksGo] at hb
    split at hb
    · rcases List.mem_cons.mp hb with rfl | hb2
      · simp [hlen]; omega
      · exact ih [] 0 rfl (by omega) b hb2
    · exact ih (cur ++ [fmtSlide (h, t)]) (c + 1) (by simp [hlen]) (by omega) b hb
  | case2 t hne =>
    intro cur c hlen hlt b hb
    rcases t with _ | ⟨a, _ | ⟨x, rest⟩⟩
    · simp only [makeBlocksGo] at hb
      split at hb
      · simp at hb
      · rcases List.mem_singleton.mp hb with rfl; omega
    · simp only [makeBlocksGo] at hb
      split at hb
      · simp at hb
      · rcases List.mem_singleton.mp hb with rfl; omega
    · exact absurd rfl (hne a x rest)

/-- Claim C1: for every non-empty ordered slide sequence (each slide a
header/text pair, laid out in the alternating list `_make_blocks`
receives) and every block size B ≥ 1, the blocks produced by the chunker,
flattened in order, are exactly the input slides (same slides, same
order, each in exactly one block, no duplication, no loss), and no block
holds more than B slides. -/
theorem c1_block_chunker_partition (ps : List (String × String)) (B : Nat)
    (hne : ps ≠ []) (hB : 1 ≤ B) :
    (makeBlocksStruct (interleave ps) B).flatten = ps.map fmtSlide ∧
    ∀ b ∈ makeBlocksStruct (interleave ps) B, b.length ≤ B := by
  constructor
  · rw [makeBlocksStruct, makeBlocksGo_flatten, pairUp_interleave]
    simp
  · exact makeBlocksGo_sizes B hB _ [] 0 rfl (by omega)

/-- Witness for C1 at a concrete three-slide input with block size 2. -/
theorem c1_block_chunker_partition_witness :
    (makeBlocksStruct (interleave [("--- SLIDE 1 ---", "alpha"),
      ("--- SLIDE 2 ---", "beta"), ("--- SLIDE 3 ---", "gamma")]) 2).flatten =
      [("--- SLIDE 1 ---", "alpha"), ("--- SLIDE 2 ---", "beta"),
       ("--- SLIDE 3 ---", "gamma")].map fmtSlide ∧
    ∀ b ∈ makeBlocksStruct (interleave [("--- SLIDE 1 ---", "alpha"),
      ("--- SLIDE 2 ---", "beta"), ("--- SLIDE 3 ---", "gamma")]) 2, b.length ≤ 2 :=
  c1_block_chunker_partition _ 2 (by simp) (by omega)

/-! ## Dictionary lemmas -/

theorem dGet_cons (k0 : String) (v0 : JValue) (rest : Dict) (k : String) :
    dGet ((k0, v0) :: rest) k = if k0 = k then some v0 else dGet rest k := by
  by_cases h : k0 = k <;> simp [dGet, List.find?_cons, h]

theorem dGet_dSet_self (d : Dict) (k : String) (v : JValue) :
    dGet (dSet d k v) k = some v := by
  induction d with
  | nil => simp [dSet, dGet_cons]
  | cons p rest ih =>
    rcases p with ⟨k0, v0⟩
    by_cases h : k0 = k
    · simp [dSet, h, dGet_cons]
    · simp [dSet, h, dGet_cons, ih]

theorem dGet_dSet_ne (d : Dict) (k : String) (v : JValue) (k2 : String) (h : k ≠ k2) :
    dGet (dSet d k v) k2 = dGet d k2 := by
  induction d with
  | nil => simp [dSet, dGet_cons, h]
  | cons p rest ih =>
    rcases p with ⟨k0, v0⟩
    by_cases h0 : k0 = k
    · subst h0; simp [dSet, dGet_cons, h]
    · simp [dSet, h0, dGet_cons, ih]

theorem dGet_append_single_ne (d : Dict) (k : String) (v : JValue) (k2 : String)
    (h : k ≠ k2) : dGet (d ++ [(k, v)]) k2 = dGet d k2 := by
  induction d with
  | nil => simp [dGet_cons, h]
  | cons p rest ih =>
    rcases p with ⟨k0, v0⟩
    by_cases h0 : k0 = k2 <;> simp [dGet_cons, h0, ih]

theorem dGet_append_single_none (d : Dict) (k : String) (v : JValue)
    (h : dGet d k = none) : dGet (d ++ [(k, v)]) k = some v := by
  induction d with
  | nil => simp [dGet_cons]
  | cons p rest ih =>
    rcases p with ⟨k0, v0⟩
    rw [dGet_cons] at h
    by_cases h0 : k0 = k
    · simp [h0] at h
    · simp [dGet_cons, h0] at h ⊢; exact ih h

theorem dGet_dSetDefault_self (d : Dict) (k : String) (v : JValue) :
    dGet (dSetDefault d k v) k = some ((dGet d k).getD v) := by
  unfold dSetDefault
  cases h : dGet d k with
  | some w => simp [h]
  | none => simp [h, dGet_append_single_none d k v h]

theorem dGet_dSetDefault_ne (d : Dict) (k : String) (v : JValue) (k2 : String)
    (h : k ≠ k2) : dGet (dSetDefault d k v) k2 = dGet d k2 := by
  unfold dSetDefault
  split
  · rfl
  · exact dGet_append_single_ne d k v k2 h

/-! ## ResultMerger lemmas -/

theorem getArr_getD_jArrNil (o : Option JValue) :
    getArr (some (o.getD (.jArr []))) = getArr o := by
  cases o <;> simp [getArr]

theorem dGet_mergeListStep_self (r acc : Dict) (k : String) :
    dGet (mergeListStep r acc k) k =
      some (.jArr (getArr (dGet acc k) ++ getArr (dGet r k))) := by
  unfold mergeListStep
  rw [dGet_dSet_self, dGet_dSetDefault_self, getArr_getD_jArrNil]

theorem dGet_mergeListStep_ne (r acc : Dict) (k k2 : String) (h : k ≠ k2) :
    dGet (mergeListStep r acc k) k2 = dGet acc k2 := by
  unfold mergeListStep
  rw [dGet_dSet_ne _ _ _ _ h, dGet_dSetDefault_ne _ _ _ _ h]

theorem dGet_mergeScoreStep_self (r acc : Dict) (k : String) :
    dGet (mergeScoreStep r acc k) k =
      some (.jInt (pyRound2 (getIntD (dGet acc k) 0 + getIntD (dGet r k) 0))) := by
  unfold mergeScoreStep
  rw [dGet_dSet_self]

theorem dGet_mergeScoreStep_ne (r acc : Dict) (k k2 : String) (h : k ≠ k2) :
    dGet (mergeScoreStep r acc k) k2 = dGet acc k2 := by
  unfold mergeScoreStep
  rw [dGet_dSet_ne _ _ _ _ h]

theorem dGet_mergeListPhase_ne (c r : Dict) (k2 : String) (h : k2 ∉ listKeys) :
    dGet (mergeListPhase c r) k2 = dGet c k2 := by
  simp only [listKeys, List.mem_cons, List.not_mem_nil, or_false, not_or] at h
  obtain ⟨h1, h2, h3⟩ := h
  simp only [mergeListPhase, listKeys, List.foldl]
  rw [dGet_mergeListStep_ne _ _ _ _ (Ne.symm h3),
    dGet_mergeListStep_ne _ _ _ _ (Ne.symm h2),
    dGet_mergeListStep_ne _ _ _ _ (Ne.symm h1)]

theorem dGet_mergeListPhase_list (c r : Dict) (k : String) (hk : k ∈ listKeys) :
    dGet (mergeListPhase c r) k =
      some (.jArr (getArr (dGet c k) ++ getArr (dGet r k))) := by
  simp only [mergeListPhase, listKeys, List.foldl]
  rcases (by simpa [listKeys] using hk :
      k = "strengths" ∨ k = "weaknesses" ∨ k = "recommendations") with rfl | rfl | rfl
  · rw [dGet_mergeListStep_ne _ _ _ _ (by decide),
      dGet_mergeListStep_ne _ _ _ _ (by decide), dGet_mergeListStep_self]
  · rw [dGet_mergeListStep_ne _ _ _ _ (by decide), dGet_mergeListStep_self,
      dGet_mergeListStep_ne _ _ _ _ (by decide)]
  · rw [dGet_mergeListStep_self, dGet_mergeListStep_ne _ _ _ _ (by decide),
      dGet_mergeListStep_ne _ _ _ _ (by decide)]

theorem dGet_mergeStep_score (c r : Dict) (k : String) (hk : k ∈ scoreKeys) :
    dGet (mergeStep c r) k =
      some (.jInt (pyRound2 (getIntD (dGet c k) 0 + getIntD (dGet r k) 0))) := by
  simp only [mergeStep, mergeScorePhase, scoreKeys, List.foldl]
  rcases (by simpa [scoreKeys] using hk :
      k = "clarity_score" ∨ k = "overall_quality_score") with rfl | rfl
  · rw [dGet_mergeScoreStep_ne _ _ _ _ (by decide), dGet_mergeScoreStep_self,
      dGet_mergeListPhase_ne _ _ _ (by decide)]
  · rw [dGet_mergeScoreStep_self, dGet_mergeScoreStep_ne _ _ _ _ (by decide),
      dGet_mergeListPhase_ne _ _ _ (by decide)]

theorem dGet_mergeStep_list (c r : Dict) (k : String) (hk : k ∈ listKeys) :
    dGet (mergeStep c r) k =
      some (.jArr (getArr (dGet c k) ++ getArr (dGet r k))) := by
  simp only [mergeStep, mergeScorePhase, scoreKeys, List.foldl]
  rw [dGet_mergeScoreStep_ne _ _ _ _ (by
      rcases (by simpa [listKeys] using hk :
        k = "strengths" ∨ k = "weaknesses" ∨ k = "recommendations") with rfl | rfl | rfl <;> decide),
    dGet_mergeScoreStep_ne _ _ _ _ (by
      rcases (by simpa [listKeys] using hk :
        k = "strengths" ∨ k = "weaknesses" ∨ k = "recommendations") with rfl | rfl | rfl <;> decide),
    dGet_mergeListPhase_list _ _ _ hk]

theorem foldl_mergeStep_score (k : String) (hk : k ∈ scoreKeys) (rs : List Dict) :
    ∀ (c : Dict) (m : Int), dGet c k = some (.jInt m) →
    dGet (rs.foldl mergeStep c) k =
      some (.jInt (rs.foldl (fun acc r => pyRound2 (acc + getIntD (dGet r k) 0)) m)) := by
  induction rs with
  | nil => intro c m hc; simpa using hc
  | cons r rs ih =>
    intro c m hc
    simp only [List.foldl]
    exact ih _ _ (by rw [dGet_mergeStep_score _ _ _ hk, hc]; rfl)

theorem foldl_mergeStep_list (k : String) (hk : k ∈ listKeys) (rs : List Dict) :
    ∀ (c : Dict) (xs : List JValue), dGet c k = some (.jArr xs) →
    dGet (rs.foldl mergeStep c) k =
      some (.jArr (xs ++ (rs.map (fun r => getArr (dGet r k))).flatten)) := by
  induction rs with
  | nil => intro c xs hc; simpa using hc
  | cons r rs ih =>
    intro c xs hc
    simp only [List.foldl, List.map, List.flatten]
    rw [ih _ _ (by rw [dGet_mergeStep_list _ _ _ hk, hc])]
    simp [getArr]

theorem isIntVal_spec (o : Option JValue) (h : isIntVal o = true) :
    o = some (.jInt (getIntD o 0)) := by
  match o with
  | some (.jInt n) => rfl
  | none | some .jNull | some (.jBool _) | some (.jStr _)
  | some (.jArr _) | some (.jObj _) => simp [isIntVal] at h

theorem isArrVal_spec (o : Option JValue) (h : isArrVal o = true) :
    o = some (.jArr (getArr o)) := by
  match o with
  | some (.jArr xs) => rfl
  | none | some .jNull | some (.jBool _) | some (.jStr _)
  | some (.jInt _) | some (.jObj _) => simp [isArrVal] at h

/-- Claim C2: for every ordered sequence of per-block results, each
numeric score field (clarity score, overall quality score) of the merged
result is the left-to-right pairwise fold merged = round((merged+next)/2)
over the blocks' scores (`round` is Python 3 rounding, ties to even),
not an arithmetic mean. -/
theorem c2_score_merge_pairwise_fold (r0 : Dict) (rest : List Dict) (k : String)
    (hk : k ∈ scoreKeys)
    (hint : ∀ r ∈ r0 :: rest, isIntVal (dGet r k) = true) :
    dGet (mergeBlockResults (r0 :: rest)) k =
      some (.jInt (rest.foldl (fun m r => pyRound2 (m + getIntD (dGet r k) 0))
        (getIntD (dGet r0 k) 0))) := by
  have h0 := isIntVal_spec _ (hint r0 (by simp))
  exact foldl_mergeStep_score k hk rest r0 _ h0

/-- Witness for C2: scores 4 and 8 merge to 6, and scores 4, 8, 2 merge
pairwise to 4 (not the arithmetic mean 4.67). -/
theorem c2_score_merge_pairwise_fold_witness :
    dGet (mergeBlockResults [[("clarity_score", JValue.jInt 4)],
        [("clarity_score", JValue.jInt 8)]]) "clarity_score" = some (.jInt 6) ∧
    dGet (mergeBlockResults [[("clarity_score", JValue.jInt 4)],
        [("clarity_score", JValue.jInt 8)], [("clarity_score", JValue.jInt 2)]])
      "clarity_score" = some (.jInt 4) := by
  constructor
  · rw [c2_score_merge_pairwise_fold _ _ _ (by decide) (by decide)]
    rfl
  · rw [c2_score_merge_pairwise_fold _ _ _ (by decide) (by decide)]
    rfl

/-- Claim C3: for every ordered sequence of per-block results, each of
the merged strengths / weaknesses / recommendations lists is the
concatenation of the per-block lists in block order, preserving each
block's internal order, with no deduplication and no re-sorting. -/
theorem c3_list_merge_concat (r0 : Dict) (rest : List Dict) (k : String)
    (hk : k ∈ listKeys)
    (harr : ∀ r ∈ r0 :: rest, isArrVal (dGet r k) = true) :
    dGet (mergeBlockResults (r0 :: rest)) k =
      some (.jArr (((r0 :: rest).map (fun r => getArr (dGet r k))).flatten)) := by
  have h0 := isArrVal_spec _ (harr r0 (by simp))
  simpa using foldl_mergeStep_list k hk rest r0 _ h0

/-- Witness for C3: merging strengths ["a"] and ["b"] yields
["a", "b"]. -/
theorem c3_list_merge_concat_witness :
    dGet (mergeBlockResults [[("strengths", JValue.jArr [.jStr "a"])],
        [("strengths", JValue.jArr [.jStr "b"])]]) "strengths" =
      some (.jArr [.jStr "a", .jStr "b"]) := by
  rw [c3_list_merge_concat _ _ _ (by decide) (by decide)]
  rfl

/-! ## ResponseParser lemmas -/

theorem dGet_coerceListField_self (d : Dict) (k : String) (cap : Nat) :
    dGet (coerceListField d k cap) k =
      some (.jArr (((getArr (dGet d k)).map
        (fun x => .jStr (pyTrim (pyStr x)))).take cap)) := by
  unfold coerceListField
  rw [dGet_dSet_self]

theorem dGet_coerceListField_ne (d : Dict) (k : String) (cap : Nat) (k2 : String)
    (h : k ≠ k2) : dGet (coerceListField d k cap) k2 = dGet d k2 := by
  unfold coerceListField
  rw [dGet_dSet_ne _ _ _ _ h]

/-- Claim C4: after fence stripping, a backend text parsing as a JSON
object whose key set is a superset of the required keys yields that
object with strengths, weaknesses and recommendations coerced to trimmed
strings and truncated to their caps (5, 20, 20) and every other key kept
as parsed; a non-superset key set, or a text that does not parse to an
object, yields "no result" (`none`) instead of an exception.  The array
hypothesis restricts the three list fields to JSON arrays, the shapes
over which the source's list comprehension iterates list items (a string
value would be iterated character by character and a non-iterable would
raise an uncaught `TypeError`). -/
theorem c4_response_parsing (parse : String → Option JValue) (text : String)
    (hne : text ≠ "") :
    (∀ fields, parse (stripFences text) = some (.jObj fields) →
      (hasRequiredKeys fields = true →
        (∀ k ∈ listKeys, isArrVal (dGet fields k) = true) →
        ∃ d, tryParseJson parse text = some d ∧
          dGet d "strengths" =
            some (.jArr (((getArr (dGet fields "strengths")).map
              (fun x => .jStr (pyTrim (pyStr x)))).take 5)) ∧
          dGet d "weaknesses" =
            some (.jArr (((getArr (dGet fields "weaknesses")).map
              (fun x => .jStr (pyTrim (pyStr x)))).take 20)) ∧
          dGet d "recommendations" =
            some (.jArr (((getArr (dGet fields "recommendations")).map
              (fun x => .jStr (pyTrim (pyStr x)))).take 20)) ∧
          ∀ k, k ∉ listKeys → dGet d k = dGet fields k) ∧
      (hasRequiredKeys fields = false → tryParseJson parse text = none)) ∧
    (isObjVal (parse (stripFences text)) = false → tryParseJson parse text = none) := by
  refine ⟨fun fields hp => ⟨fun hreq harr => ?_, fun hreq => ?_⟩, fun hobj => ?_⟩
  · refine ⟨coerceListField (coerceListField (coerceListField fields "strengths" 5)
        "weaknesses" 20) "recommendations" 20,
      by simp only [tryParseJson, if_neg hne, hp, hreq, if_pos], ?_, ?_, ?_, ?_⟩
    · rw [dGet_coerceListField_ne _ _ _ _ (by decide),
        dGet_coerceListField_ne _ _ _ _ (by decide), dGet_coerceListField_self]
    · rw [dGet_coerceListField_ne _ _ _ _ (by decide), dGet_coerceListField_self,
        dGet_coerceListField_ne _ _ _ _ (by decide)]
    · rw [dGet_coerceListField_self, dGet_coerceListField_ne _ _ _ _ (by decide),
        dGet_coerceListField_ne _ _ _ _ (by decide)]
    · intro k hk
      simp only [listKeys, List.mem_cons, List.not_mem_nil, or_false, not_or] at hk
      obtain ⟨h1, h2, h3⟩ := hk
      rw [dGet_coerceListField_ne _ _ _ _ (Ne.symm h3),
        dGet_coerceListField_ne _ _ _ _ (Ne.symm h2),
        dGet_coerceListField_ne _ _ _ _ (Ne.symm h1)]
  · simp [tryParseJson, if_neg hne, hp, hreq]
  · simp only [tryParseJson, if_neg hne]
    cases hparse : parse (stripFences text) with
    | none => rfl
    | some v =>
      cases v <;> simp_all [isObjVal]

/-- Witness for C4: a fenced valid JSON object carrying all required keys
is accepted (with fences stripped before the parse), and an object
missing required keys is rejected with `none`. -/
theorem c4_response_parsing_witness :
    ("```json PAYLOAD```" ≠ "") ∧
    (∀ k ∈ listKeys, isArrVal (dGet fallbackSummary k) = true) ∧
    (∃ d, tryParseJson
        (fun s => if s = "PAYLOAD" then some (.jObj fallbackSummary) else none)
        "```json PAYLOAD```" = some d ∧
      dGet d "strengths" =
        some (.jArr (((getArr (dGet fallbackSummary "strengths")).map
          (fun x => .jStr (pyTrim (pyStr x)))).take 5)) ∧
      dGet d "weaknesses" =
        some (.jArr (((getArr (dGet fallbackSummary "weaknesses")).map
          (fun x => .jStr (pyTrim (pyStr x)))).take 20)) ∧
      dGet d "recommendations" =
        some (.jArr (((getArr (dGet fallbackSummary "recommendations")).map
          (fun x => .jStr (pyTrim (pyStr x)))).take 20)) ∧
      ∀ k, k ∉ listKeys → dGet d k = dGet fallbackSummary k) ∧
    tryParseJson (fun s => if s = "PAYLOAD" then some (.jObj [("main_topic", .jNull)])
      else none) "```json PAYLOAD```" = none := by
  refine ⟨by decide, by decide, ?_, ?_⟩
  · exact ((c4_response_parsing _ _ (by decide)).1 fallbackSummary (by rfl)).1
      (by rfl) (by decide)
  · exact ((c4_response_parsing _ _ (by decide)).1 [("main_topic", .jNull)]
      (by rfl)).2 (by rfl)

/-! ## SlideAttributor: explicit patterns -/

/-- Claim C6: a finding string matching the explicit single-page pattern
(the page word, a number, a colon / hyphen / en-dash separator, the rest,
case-insensitively) is rewritten by the attributor to
`{slide: number, text: rest}` with the rest trimmed. -/
theorem c6_single_page_pattern (s : String) (slides : List Slide)
    (n : Nat) (restText : String)
    (hm : matchSlideSingle (pyTrim s) = some (n, restText)) :
    processItem slides (.jStr s) =
      .jObj [("slide", .jInt (n : Int)), ("text", .jStr (pyTrim restText))] := by
  simp only [processItem, isAttributedItem, Bool.false_eq_true, if_false, pyStr, hm]

/-- Witness for C6 at the localized form of "Page 3: overloaded text". -/
theorem c6_single_page_pattern_witness :
    matchSlideSingle (pyTrim "Слайд 3: перегруженный текст") =
      some (3, "перегруженный текст") ∧
    processItem [] (.jStr "Слайд 3: перегруженный текст") =
      .jObj [("slide", .jInt 3), ("text", .jStr "перегруженный текст")] := by
  refine ⟨rfl, ?_⟩
  rw [c6_single_page_pattern "Слайд 3: перегруженный текст" [] 3
    "перегруженный текст" rfl]
  rfl

theorem toNat_ofNat_small (n : Nat) (h : n < 55296) : (Char.ofNat n).toNat = n := by
  unfold Char.ofNat
  split
  · rfl
  · rename_i hv
    simp [Nat.isValidChar] at hv
    omega

theorem toNat_of_isPyWs (c : Char) (h : isPyWs c = true) :
    c.toNat = 32 ∨ c.toNat = 9 ∨ c.toNat = 10 ∨ c.toNat = 13 ∨
    c.toNat = 11 ∨ c.toNat = 12 := by
  simp only [isPyWs, Bool.or_eq_true, decide_eq_true_eq] at h
  rcases h with ((((rfl | rfl) | rfl) | rfl) | rfl) | rfl <;> simp

theorem toNat_of_isDigitC (c : Char) (h : isDigitC c = true) :
    48 ≤ c.toNat ∧ c.toNat ≤ 57 := by
  simpa [isDigitC] using h

theorem not_ws_digit_of_pyLower_yeru (c : Char) (hc : pyLower c = 'ы') :
    isPyWs c = false ∧ isDigitC c = false := by
  have hyn : ('ы').toNat = 1099 := by decide
  have hn : c.toNat = 1067 ∨ c.toNat = 1099 := by
    simp only [pyLower] at hc
    split_ifs at hc with h1 h2 h3
    · have := congrArg Char.toNat hc
      rw [toNat_ofNat_small _ (by omega), hyn] at this
      omega
    · have := congrArg Char.toNat hc
      rw [toNat_ofNat_small _ (by omega), hyn] at this
      omega
    · exact absurd hc (by decide)
    · have := congrArg Char.toNat hc
      rw [hyn] at this
      omega
  constructor
  · cases hws : isPyWs c with
    | false => rfl
    | true => exfalso; rcases toNat_of_isPyWs c hws with h|h|h|h|h|h <;> omega
  · cases hdg : isDigitC c with
    | false => rfl
    | true => exfalso; have := toNat_of_isDigitC c hdg; omega
theorem matchSeq_lit_cons (w : List Char) (es : List RElem) (cs : List Char)
    (hcond : (cs.take w.length).map pyLower = w.map pyLower) :
    matchSeq (.lit w :: es) cs = matchSeq es (cs.drop w.length) := by
  simp only [matchSeq, elemSplits, if_pos hcond, List.findSome?_cons]
  cases matchSeq es (cs.drop w.length) <;> simp

theorem matchSeq_single_none_of_multi (cs : List Char) (caps : List (List Char))
    (hm : matchSeq multiPagePattern cs = some caps) :
    matchSeq singlePagePattern cs = none := by
  -- the multi literal matched
  have hlit : (cs.take 6).map pyLower = "слайды".data := by
    by_cases hcond : (cs.take ("Слайды".data.length)).map pyLower =
        "Слайды".data.map pyLower
    · have h1 : "Слайды".data.length = 6 := by decide
      have h2 : "Слайды".data.map pyLower = "слайды".data := by decide
      rw [h1] at hcond
      rw [hcond, h2]
    · rw [multiPagePattern] at hm
      simp only [matchSeq, elemSplits, if_neg hcond, List.findSome?_nil] at hm
      exact Option.noConfusion hm
  have hlen6 : 6 ≤ cs.length := by
    have hx := congrArg List.length hlit
    have h2 : ("слайды".data).length = 6 := by decide
    rw [h2] at hx
    simp only [List.length_map, List.length_take] at hx
    omega
  have h5lt : 5 < cs.length := by omega
  have hc5 : pyLower (cs.get ⟨5, h5lt⟩) = 'ы' := by
    have h9 : ((cs.take 6).map pyLower)[5]? = ("слайды".data)[5]? := by rw [hlit]
    have hrhs : ("слайды".data)[5]? = some 'ы' := by decide
    rw [hrhs] at h9
    have hlb : 5 < ((cs.take 6).map pyLower).length := by
      simp [List.length_map, List.length_take]; omega
    rw [List.getElem?_eq_getElem hlb] at h9
    simp only [List.getElem_map, List.getElem_take] at h9
    simpa [List.get_eq_getElem] using Option.some_injective _ h9
  obtain ⟨hws, hdig⟩ := not_ws_digit_of_pyLower_yeru _ hc5
  have hdrop5 : cs.drop 5 = cs.get ⟨5, h5lt⟩ :: cs.drop 6 := by
    rw [List.drop_eq_getElem_cons h5lt]
    simp [List.get_eq_getElem]
  -- the single literal also matches, but the digit group cannot
  have hlit5 : (cs.take ("Слайд".data.length)).map pyLower =
      "Слайд".data.map pyLower := by
    have h1 : "Слайд".data.length = 5 := by decide
    have h2 : "Слайд".data.map pyLower = "слайд".data := by decide
    rw [h1, h2]
    have ht : cs.take 5 = (cs.take 6).take 5 := by
      rw [List.take_take]; norm_num
    rw [ht, List.map_take, hlit]
    decide
  have hnws : ¬ isPyWs (cs.get ⟨5, h5lt⟩) = true := by
    rw [hws]; exact Bool.false_ne_true
  have hndig : ¬ isDigitC (cs.get ⟨5, h5lt⟩) = true := by
    rw [hdig]; exact Bool.false_ne_true
  have htw1 : (cs.drop 5).takeWhile isPyWs = [] := by
    rw [hdrop5]; exact List.takeWhile_cons_of_neg hnws
  have htw2 : (cs.drop 5).takeWhile isDigitC = [] := by
    rw [hdrop5]; exact List.takeWhile_cons_of_neg hndig
  have e1 : elemSplits (RElem.starCls isPyWs) (cs.drop 5) =
      [(none, cs.drop 5)] := by
    simp [elemSplits, htw1, List.range_succ]
  have e2 : elemSplits (RElem.grpPlus isDigitC) (cs.drop 5) = [] := by
    simp [elemSplits, htw2, List.filter_cons]
  have hinner : matchSeq [RElem.starCls isPyWs, RElem.grpPlus isDigitC,
      RElem.starCls isPyWs, RElem.oneCls sepCls, RElem.starCls isPyWs,
      RElem.grpDotPlus] (cs.drop 5) = none := by
    simp only [matchSeq, e1, e2, List.findSome?_cons, List.findSome?_nil]
  rw [singlePagePattern, matchSeq_lit_cons _ _ _ hlit5]
  exact hinner
theorem matchSlideSingle_none_of_multi (s : String) (lp rt : String)
    (hm : matchSlideMulti s = some (lp, rt)) : matchSlideSingle s = none := by
  cases h : matchSeq multiPagePattern s.data with
  | none => simp [matchSlideMulti, h] at hm
  | some caps =>
    unfold matchSlideSingle
    rw [matchSeq_single_none_of_multi s.data caps h]

theorem mem_insSorted (x y : Int) (l : List Int) :
    y ∈ insSorted x l ↔ y = x ∨ y ∈ l := by
  induction l with
  | nil => simp [insSorted]
  | cons z zs ih =>
    simp only [insSorted]
    split_ifs with h1 h2
    · simp [List.mem_cons]
    · subst h2; simp [List.mem_cons]
    · simp only [List.mem_cons, ih]; tauto

theorem pairwise_insSorted (x : Int) (l : List Int) (h : l.Pairwise (· < ·)) :
    (insSorted x l).Pairwise (· < ·) := by
  induction l with
  | nil => simp [insSorted]
  | cons z zs ih =>
    rcases List.pairwise_cons.mp h with ⟨hz, hzs⟩
    simp only [insSorted]
    split_ifs with h1 h2
    · refine List.pairwise_cons.mpr ⟨?_, h⟩
      intro y hy
      rcases List.mem_cons.mp hy with rfl | hy2
      · exact h1
      · exact lt_trans h1 (hz y hy2)
    · exact h
    · refine List.pairwise_cons.mpr ⟨?_, ih hzs⟩
      intro y hy
      rcases (mem_insSorted x y zs).mp hy with rfl | hy2
      · omega
      · exact hz y hy2

theorem sortedDedup_pairwise (l : List Int) : (sortedDedup l).Pairwise (· < ·) := by
  suffices h : ∀ acc : List Int, acc.Pairwise (· < ·) →
      (l.foldl (fun a x => insSorted x a) acc).Pairwise (· < ·) by
    exact h [] (by simp)
  induction l with
  | nil => intro acc h; exact h
  | cons x xs ih => intro acc h; exact ih _ (pairwise_insSorted x acc h)

theorem mem_sortedDedup (l : List Int) (y : Int) : y ∈ sortedDedup l ↔ y ∈ l := by
  suffices h : ∀ acc : List Int,
      (y ∈ l.foldl (fun a x => insSorted x a) acc ↔ y ∈ acc ∨ y ∈ l) by
    simpa [sortedDedup] using h []
  induction l with
  | nil => intro acc; simp
  | cons x xs ih =>
    intro acc
    simp only [List.foldl]
    rw [ih (insSorted x acc)]
    simp only [mem_insSorted, List.mem_cons]
    tauto

theorem mem_rangeIncl (a b n : Int) : n ∈ rangeIncl a b ↔ a ≤ n ∧ n ≤ b := by
  unfold rangeIncl
  split
  · rename_i hab
    simp only [List.mem_map, List.mem_range]
    constructor
    · rintro ⟨i, hi, rfl⟩
      omega
    · rintro ⟨h1, h2⟩
      exact ⟨(n - a).toNat, by omega, by omega⟩
  · rename_i hab
    simp only [List.not_mem_nil, false_iff]
    omega

/-- Claim C7: a finding string matching the explicit multi-page pattern
is rewritten to `{slides: L, text: rest}` where L is the sorted,
deduplicated list of all integers covered by the comma/space-separated
mixture of bare numbers and ranges, each range A-B expanding to all
integers from A to B inclusive. -/
theorem c7_multi_page_pattern (s : String) (slides : List Slide)
    (listPart restText : String)
    (hm : matchSlideMulti (pyTrim s) = some (listPart, restText)) :
    processItem slides (.jStr s) =
      .jObj [("slides", .jArr ((parseSlideList listPart).map .jInt)),
             ("text", .jStr (pyTrim restText))] ∧
    (parseSlideList listPart).Pairwise (· < ·) ∧
    (∀ n : Int, n ∈ parseSlideList listPart ↔
      ∃ tok ∈ slideListTokens listPart, n ∈ tokenInts tok) ∧
    (∀ a b n : Int, n ∈ rangeIncl a b ↔ a ≤ n ∧ n ≤ b) := by
  have hs := matchSlideSingle_none_of_multi _ _ _ hm
  refine ⟨?_, sortedDedup_pairwise _, ?_, mem_rangeIncl⟩
  · simp only [processItem, isAttributedItem, Bool.false_eq_true, if_false,
      pyStr, hs, hm]
  · intro n
    rw [parseSlideList, mem_sortedDedup, List.mem_flatMap]

/-- Witness for C7 at the localized form of
"Pages 2, 4-6: inconsistent headers": the slide list expands to
[2, 4, 5, 6]. -/
theorem c7_multi_page_pattern_witness :
    matchSlideMulti (pyTrim "Слайды 2, 4-6: несогласованные заголовки") =
      some ("2, 4-6", "несогласованные заголовки") ∧
    processItem [] (.jStr "Слайды 2, 4-6: несогласованные заголовки") =
      .jObj [("slides", .jArr [.jInt 2, .jInt 4, .jInt 5, .jInt 6]),
             ("text", .jStr "несогласованные заголовки")] := by
  refine ⟨rfl, ?_⟩
  rw [(c7_multi_page_pattern "Слайды 2, 4-6: несогласованные заголовки" [] "2, 4-6"
    "несогласованные заголовки" rfl).1]
  rfl

theorem dropWhile_dropWhile (p : Char → Bool) (l : List Char) :
    (l.dropWhile p).dropWhile p = l.dropWhile p := by
  induction l with
  | nil => rfl
  | cons a t ih =>
    rw [List.dropWhile_cons]
    split
    · exact ih
    · rw [List.dropWhile_cons_of_neg (by assumption)]

theorem pyTrimL_no_lead (cs : List Char) :
    (pyTrimL cs).dropWhile isPyWs = pyTrimL cs := by
  unfold pyTrimL
  set A := cs.dropWhile isPyWs with hA
  have hpre : (A.reverse.dropWhile isPyWs).reverse <+: A := by
    have hsuf : A.reverse.dropWhile isPyWs <:+ A.reverse :=
      List.dropWhile_suffix _
    have := List.reverse_prefix.mpr hsuf
    simpa using this
  cases hR : (A.reverse.dropWhile isPyWs).reverse with
  | nil => rfl
  | cons c t =>
    rw [List.dropWhile_cons_of_neg]
    rw [hR] at hpre
    rcases hpre with ⟨s, hs⟩
    have hAc : A = c :: (t ++ s) := by rw [← hs]; simp
    have : isPyWs c = false := by
      by_contra hb
      have hb2 : isPyWs c = true := by
        cases h : isPyWs c
        · exact absurd h hb
        · rfl
      have := hA ▸ hAc
      have h2 : cs.dropWhile isPyWs = c :: (t ++ s) := this
      have h3 := dropWhile_dropWhile isPyWs cs
      rw [h2, List.dropWhile_cons_of_pos hb2] at h3
      have := congrArg List.length h3
      simp at this
      have h4 := (List.dropWhile_sublist isPyWs (l := t ++ s)).length_le
      rw [List.length_append] at h4
      omega
    simp [this]

theorem pyTrimL_idem (cs : List Char) : pyTrimL (pyTrimL cs) = pyTrimL cs := by
  have h1 : (pyTrimL cs).dropWhile isPyWs = pyTrimL cs := pyTrimL_no_lead cs
  have h2 : (pyTrimL cs).reverse.dropWhile isPyWs = (pyTrimL cs).reverse := by
    unfold pyTrimL
    simp only [List.reverse_reverse]
    exact dropWhile_dropWhile _ _
  show ((((pyTrimL cs).dropWhile isPyWs).reverse.dropWhile isPyWs)).reverse = pyTrimL cs
  rw [h1, h2]
  simp

theorem pyTrim_idem (s : String) : pyTrim (pyTrim s) = pyTrim s := by
  unfold pyTrim
  rw [show (String.mk (pyTrimL s.data)).data = pyTrimL s.data from rfl, pyTrimL_idem]
theorem dSet_eq_of_dGet (d : Dict) (k : String) (v : JValue)
    (h : dGet d k = some v) : dSet d k v = d := by
  induction d with
  | nil => simp [dGet] at h
  | cons p rest ih =>
    rcases p with ⟨k0, v0⟩
    rw [dGet_cons] at h
    by_cases h0 : k0 = k
    · subst h0
      simp only [if_pos rfl] at h
      simp only [dSet, if_pos rfl]
      cases h
      rfl
    · simp only [if_neg h0] at h
      simp [dSet, h0, ih h]

theorem processItem_attributed (slides : List Slide) (it : JValue)
    (h : isAttributedItem it = true) : processItem slides it = it := by
  simp [processItem, h]

theorem processItem_idem (slides : List Slide) (it : JValue) :
    processItem slides (processItem slides it) = processItem slides it := by
  by_cases h : isAttributedItem it = true
  · rw [processItem_attributed slides it h]
    exact processItem_attributed slides it h
  · have hb : isAttributedItem it = false := by
      cases hx : isAttributedItem it
      · rfl
      · exact absurd hx h
    cases h1 : matchSlideSingle (pyTrim (pyStr it)) with
    | some pr =>
      rcases pr with ⟨n, rest⟩
      have hout : processItem slides it =
          .jObj [("slide", .jInt (n : Int)), ("text", .jStr (pyTrim rest))] := by
        simp only [processItem, hb, Bool.false_eq_true, if_false, h1]
      rw [hout]; exact processItem_attributed slides _ rfl
    | none =>
      cases h2 : matchSlideMulti (pyTrim (pyStr it)) with
      | some pr =>
        rcases pr with ⟨listPart, rest⟩
        have hout : processItem slides it =
            .jObj [("slides", .jArr ((parseSlideList listPart).map .jInt)),
                   ("text", .jStr (pyTrim rest))] := by
          simp only [processItem, hb, Bool.false_eq_true, if_false, h1, h2]
        rw [hout]; exact processItem_attributed slides _ rfl
      | none =>
        cases h3 : mapTextToSlidesByContent (pyTrim (pyStr it)) slides with
        | nil =>
          have hout : processItem slides it = .jStr (pyTrim (pyStr it)) := by
            simp only [processItem, hb, Bool.false_eq_true, if_false, h1, h2, h3]
          rw [hout]
          have key : pyTrim (pyStr (JValue.jStr (pyTrim (pyStr it)))) =
              pyTrim (pyStr it) := by
            show pyTrim (pyTrim (pyStr it)) = pyTrim (pyStr it)
            exact pyTrim_idem _
          simp only [processItem, isAttributedItem, Bool.false_eq_true, if_false,
            key, h1, h2, h3]
        | cons a t =>
          cases t with
          | nil =>
            have hout : processItem slides it =
                .jObj [("slide", .jInt a), ("text", .jStr (pyTrim (pyStr it)))] := by
              simp only [processItem, hb, Bool.false_eq_true, if_false, h1, h2, h3]
            rw [hout]; exact processItem_attributed slides _ rfl
          | cons b t2 =>
            have hout : processItem slides it =
                .jObj [("slides", .jArr ((a :: b :: t2).map .jInt)),
                       ("text", .jStr (pyTrim (pyStr it)))] := by
              simp only [processItem, hb, Bool.false_eq_true, if_false, h1, h2, h3]
            rw [hout]; exact processItem_attributed slides _ rfl

theorem dGet_attachCore_ne (combined : Dict) (slides : List Slide) (k : String)
    (h1 : k ≠ "weaknesses") (h2 : k ≠ "recommendations") :
    dGet (attachCore combined slides) k = dGet combined k := by
  simp only [attachCore, List.foldl]
  rw [dGet_dSet_ne _ _ _ _ (Ne.symm h2), dGet_dSet_ne _ _ _ _ (Ne.symm h1)]

theorem attachCore_idem (combined : Dict) (slides : List Slide) :
    attachCore (attachCore combined slides) slides = attachCore combined slides := by
  simp only [attachCore, List.foldl]
  set W := JValue.jArr ((getArr (dGet combined "weaknesses")).map (processItem slides))
    with hW
  set acc1 := dSet combined "weaknesses" W with hacc1
  set Rv := JValue.jArr ((getArr (dGet acc1 "recommendations")).map (processItem slides))
    with hRv
  set out := dSet acc1 "recommendations" Rv with hout
  have hgw : dGet out "weaknesses" = some W := by
    rw [hout, dGet_dSet_ne _ _ _ _ (by decide), hacc1, dGet_dSet_self]
  have hgr : dGet out "recommendations" = some Rv := by
    rw [hout, dGet_dSet_self]
  have hW2 : JValue.jArr ((getArr (dGet out "weaknesses")).map (processItem slides)) = W := by
    rw [hgw, hW]
    simp only [getArr, List.map_map]
    congr 1
    apply List.map_congr_left
    intro x hx
    exact processItem_idem slides x
  rw [hW2]
  rw [dSet_eq_of_dGet _ _ _ hgw]
  have hR2 : JValue.jArr ((getArr (dGet out "recommendations")).map (processItem slides)) = Rv := by
    rw [hgr, hRv]
    simp only [getArr, List.map_map]
    congr 1
    apply List.map_congr_left
    intro x hx
    exact processItem_idem slides x
  rw [hR2]
  exact dSet_eq_of_dGet _ _ _ hgr
/-- Claim C5: the slide attributor is idempotent.  A finding already in
attributed shape (a dict carrying a slide or slides key) passes through
every pass unchanged, and running the attributor on its own output
returns that output unchanged.  The hypotheses restrict the two list
fields to the shapes (absent or array) on which the Python loop iterates
findings rather than raising. -/
theorem c5_attributor_idempotent (combined : Dict) (fullText : String)
    (hw : dGet combined "weaknesses" = none ∨
      isArrVal (dGet combined "weaknesses") = true)
    (hr : dGet combined "recommendations" = none ∨
      isArrVal (dGet combined "recommendations") = true) :
    (∀ slides it, isAttributedItem it = true → processItem slides it = it) ∧
    ∀ out, attachSlideNumbersIfMissing? combined fullText = some out →
      attachSlideNumbersIfMissing? out fullText = some out := by
  refine ⟨fun slides it h => processItem_attributed slides it h, fun out hout => ?_⟩
  unfold attachSlideNumbersIfMissing? at hout ⊢
  cases hsplit : splitIntoSlides? fullText with
  | none => rw [hsplit] at hout; exact Option.noConfusion hout
  | some slides =>
    rw [hsplit] at hout
    rw [show Option.map (attachCore combined) (some slides) =
      some (attachCore combined slides) from rfl] at hout
    injection hout with h3
    rw [show Option.map (attachCore out) (some slides) =
      some (attachCore out slides) from rfl, ← h3, attachCore_idem]

/-- Claim C10: the attributor rewrites only the weaknesses and
recommendations lists; every other key (strengths included) keeps exactly
the value it had in the input. -/
theorem c10_attributor_frame (combined : Dict) (k : String)
    (h1 : k ≠ "weaknesses") (h2 : k ≠ "recommendations") :
    (∀ slides, dGet (attachCore combined slides) k = dGet combined k) ∧
    (∀ fullText out, attachSlideNumbersIfMissing? combined fullText = some out →
      dGet out k = dGet combined k) := by
  refine ⟨fun slides => dGet_attachCore_ne combined slides k h1 h2,
    fun ft out hout => ?_⟩
  unfold attachSlideNumbersIfMissing? at hout
  cases hsplit : splitIntoSlides? ft with
  | none => rw [hsplit] at hout; exact Option.noConfusion hout
  | some slides =>
    rw [hsplit] at hout
    rw [show Option.map (attachCore combined) (some slides) =
      some (attachCore combined slides) from rfl] at hout
    injection hout with h3
    rw [← h3]
    exact dGet_attachCore_ne combined slides k h1 h2

set_option maxHeartbeats 1000000 in
/-- Witness for C5 at a concrete one-slide document whose weakness
finding carries an explicit page reference. -/
theorem c5_attributor_idempotent_witness :
    attachSlideNumbersIfMissing?
      ((attachSlideNumbersIfMissing?
          [("weaknesses", JValue.jArr [.jStr "Слайд 2: мало текста"]),
           ("recommendations", JValue.jArr [])]
          "--- SLIDE 1 ---\nмного мелкого текста").getD [])
      "--- SLIDE 1 ---\nмного мелкого текста" =
    attachSlideNumbersIfMissing?
      [("weaknesses", JValue.jArr [.jStr "Слайд 2: мало текста"]),
       ("recommendations", JValue.jArr [])]
      "--- SLIDE 1 ---\nмного мелкого текста" := by
  have hx : attachSlideNumbersIfMissing?
      [("weaknesses", JValue.jArr [.jStr "Слайд 2: мало текста"]),
       ("recommendations", JValue.jArr [])]
      "--- SLIDE 1 ---\nмного мелкого текста" =
      some ((attachSlideNumbersIfMissing?
        [("weaknesses", JValue.jArr [.jStr "Слайд 2: мало текста"]),
         ("recommendations", JValue.jArr [])]
        "--- SLIDE 1 ---\nмного мелкого текста").getD []) := rfl
  rw [(c5_attributor_idempotent
      [("weaknesses", JValue.jArr [.jStr "Слайд 2: мало текста"]),
       ("recommendations", JValue.jArr [])]
      "--- SLIDE 1 ---\nмного мелкого текста"
      (Or.inr rfl) (Or.inr rfl)).2 _ hx, hx]
  rfl

/-- Witness for C10: strengths survive attribution untouched. -/
theorem c10_attributor_frame_witness :
    dGet (attachCore [("strengths", JValue.jArr [.jStr "хорошая структура"]),
        ("weaknesses", JValue.jArr [.jStr "Слайд 2: мало текста"])]
        [⟨1, "текст"⟩]) "strengths" =
      dGet [("strengths", JValue.jArr [.jStr "хорошая структура"]),
        ("weaknesses", JValue.jArr [.jStr "Слайд 2: мало текста"])] "strengths" :=
  (c10_attributor_frame _ "strengths" (by decide) (by decide)).1 _
theorem findSome?_flatMap {α β γ : Type} (f : β → Option γ) (g : α → List β)
    (l : List α) :
    (l.flatMap g).findSome? f = l.findSome? (fun a => (g a).findSome? f) := by
  induction l with
  | nil => rfl
  | cons a t ih =>
    rw [List.flatMap_cons, List.findSome?_append, List.findSome?_cons]
    cases h : (g a).findSome? f with
    | some v => rfl
    | none => exact ih

theorem findSome?_guard_map (p : Slide → Bool) (h : Slide → Int) (l : List Slide) :
    l.findSome? (fun s => if p s then some (h s) else none) = (l.find? p).map h := by
  induction l with
  | nil => rfl
  | cons a t ih =>
    by_cases hp : p a <;> simp [List.findSome?_cons, List.find?_cons, hp, ih]

theorem ngramScan_eq_spec (words : List String) (slides : List Slide) :
    ngramScan words slides = ngramScanSpec words slides := by
  unfold ngramScan ngramScanSpec
  rw [findSome?_flatMap]
  congr 1
  funext n
  rw [findSome?_flatMap]
  congr 1
  funext ng
  rw [show (fun pr : String × Slide =>
      if slideContains pr.2 pr.1 then some pr.2.num else none) =
    (fun pr : String × Slide =>
      if slideContains pr.2 pr.1 then some pr.2.num else none) from rfl]
  have : (slides.map (fun s => (ng, s))).findSome?
      (fun pr : String × Slide =>
        if slideContains pr.2 pr.1 then some pr.2.num else none) =
      slides.findSome? (fun s => if slideContains s ng then some s.num else none) := by
    rw [List.findSome?_map]
    rfl
  rw [this, findSome?_guard_map]

/-- Claim C8 (amended): in the content-similarity pass the significant
words (lowercased, length > 2) are scanned with contiguous n-grams from
size min(6, word count) down to 3, longer n-grams first and n-grams in
position order, each tested against the slides in list order; the first
slide whose text contains the tested n-gram is returned as a single-slide
attribution.  The 5-word-phrase example of the original claim holds only
when that phrase (or a later 3-5 word sub-phrase of the finding) is the
first containment in this scan order, as `ngramScanSpec` states. -/
theorem c8_ngram_scan_order (text : String) (slides : List Slide) (k : Int)
    (hw : (sigWords text).isEmpty = false)
    (hk : ngramScanSpec (sigWords text) slides = some k) :
    mapTextToSlidesByContent text slides = [k] := by
  unfold mapTextToSlidesByContent
  rw [if_neg (by rw [hw]; exact Bool.false_ne_true)]
  rw [ngramScan_eq_spec, hk]

/-- Counterexample to C8 as stated: the finding holds the verbatim
5-word phrase "ccc ddd eee fff ggg", the phrase occurs in the text of
slide 7 and in no other slide, yet the attribution is slide 2, because
the finding's leading 6-gram is tested before any 5-gram and slide 2
contains it. -/
theorem c8_counterexample :
    "ccc ddd eee fff ggg" ∈
      ngramsOf (sigWords "aaa bbb ccc ddd eee fff ggg") 5 ∧
    isSubstrL "ccc ddd eee fff ggg".data "aaa bbb ccc ddd eee fff ggg".data = true ∧
    isSubstrL "ccc ddd eee fff ggg".data "ccc ddd eee fff ggg".data = true ∧
    isSubstrL "ccc ddd eee fff ggg".data "aaa bbb ccc ddd eee fff".data = false ∧
    mapTextToSlidesByContent "aaa bbb ccc ddd eee fff ggg"
      [⟨2, "aaa bbb ccc ddd eee fff"⟩, ⟨7, "ccc ddd eee fff ggg"⟩] = [2] ∧
    mapTextToSlidesByContent "aaa bbb ccc ddd eee fff ggg"
      [⟨2, "aaa bbb ccc ddd eee fff"⟩, ⟨7, "ccc ddd eee fff ggg"⟩] ≠ [7] := by
  refine ⟨by decide, by decide, by decide, by decide, by rfl, by decide⟩

/-- Witness for the amended C8: a finding whose tested n-gram first
lands in slide 7 attributes to slide 7. -/
theorem c8_ngram_scan_order_witness :
    (sigWords "overloaded text on this slide here").isEmpty = false ∧
    ngramScanSpec (sigWords "overloaded text on this slide here")
      [⟨7, "the slide has overloaded text on this slide here indeed"⟩] = some 7 ∧
    mapTextToSlidesByContent "overloaded text on this slide here"
      [⟨7, "the slide has overloaded text on this slide here indeed"⟩] = [7] := by
  refine ⟨rfl, rfl, ?_⟩
  exact c8_ngram_scan_order _ _ 7 rfl rfl
theorem isSome_dGet_of_contains (d : Dict) (k : String)
    (h : (dKeys d).contains k = true) : (dGet d k).isSome = true := by
  induction d with
  | nil => simp [dKeys] at h
  | cons p rest ih =>
    rcases p with ⟨k0, v0⟩
    rw [dGet_cons]
    by_cases h0 : k0 = k
    · simp [h0]
    · simp only [if_neg h0]
      apply ih
      simp only [dKeys, List.map_cons, List.contains_cons] at h
      rcases Bool.or_eq_true_iff.mp h with h1 | h2
      · exact absurd (by simpa using h1) (by simpa using Ne.symm h0)
      · exact h2

theorem isSome_dGet_dSet (d : Dict) (k : String) (v : JValue) (k2 : String)
    (h : (dGet d k2).isSome = true) : (dGet (dSet d k v) k2).isSome = true := by
  by_cases hk : k = k2
  · subst hk; rw [dGet_dSet_self]; rfl
  · rw [dGet_dSet_ne _ _ _ _ hk]; exact h

theorem tryParseJson_requiredKeys (parse : String → Option JValue) (t : String)
    (d : Dict) (h : tryParseJson parse t = some d) :
    ∀ k ∈ requiredKeys, (dGet d k).isSome = true := by
  intro k hk
  unfold tryParseJson at h
  split at h
  · exact Option.noConfusion h
  · cases hp : parse (stripFences t) with
    | none => rw [hp] at h; exact Option.noConfusion h
    | some v =>
      rw [hp] at h
      cases v with
      | jObj fields =>
        simp only at h
        split at h
        · rename_i hreq
          injection h with h2
          subst h2
          have hf : (dGet fields k).isSome = true := by
            apply isSome_dGet_of_contains
            have := List.all_eq_true.mp hreq k hk
            simpa using this
          exact isSome_dGet_dSet _ _ _ _ (isSome_dGet_dSet _ _ _ _
            (isSome_dGet_dSet _ _ _ _ hf))
        · exact Option.noConfusion h
      | jNull => exact Option.noConfusion h
      | jBool b => exact Option.noConfusion h
      | jInt n => exact Option.noConfusion h
      | jStr s => exact Option.noConfusion h
      | jArr xs => exact Option.noConfusion h

theorem isSome_dGet_mergeStep (c r : Dict) (k : String)
    (h : (dGet c k).isSome = true) : (dGet (mergeStep c r) k).isSome = true := by
  by_cases hl : k ∈ listKeys
  · rw [dGet_mergeStep_list _ _ _ hl]; rfl
  · by_cases hs : k ∈ scoreKeys
    · rw [dGet_mergeStep_score _ _ _ hs]; rfl
    · unfold mergeStep
      have h1 : k ∉ (["clarity_score", "overall_quality_score"] : List String) := hs
      simp only [mergeScorePhase, scoreKeys, List.foldl]
      simp only [scoreKeys, List.mem_cons, List.not_mem_nil, or_false, not_or] at hs
      obtain ⟨hs1, hs2⟩ := hs
      rw [dGet_mergeScoreStep_ne _ _ _ _ (Ne.symm hs2),
        dGet_mergeScoreStep_ne _ _ _ _ (Ne.symm hs1),
        dGet_mergeListPhase_ne _ _ _ hl]
      exact h

theorem isSome_dGet_mergeBlockResults (r0 : Dict) (rest : List Dict) (k : String)
    (h : (dGet r0 k).isSome = true) :
    (dGet (mergeBlockResults (r0 :: rest)) k).isSome = true := by
  show (dGet (rest.foldl mergeStep r0) k).isSome = true
  induction rest generalizing r0 with
  | nil => exact h
  | cons r rs ih => exact ih _ (isSome_dGet_mergeStep _ _ _ h)

theorem isSome_dGet_attachCore (c : Dict) (slides : List Slide) (k : String)
    (h : (dGet c k).isSome = true) :
    (dGet (attachCore c slides) k).isSome = true := by
  by_cases h1 : k = "weaknesses"
  · subst h1
    simp only [attachCore, List.foldl]
    rw [dGet_dSet_ne _ _ _ _ (by decide), dGet_dSet_self]
    rfl
  · by_cases h2 : k = "recommendations"
    · subst h2
      simp only [attachCore, List.foldl]
      rw [dGet_dSet_self]
      rfl
    · rw [dGet_attachCore_ne _ _ _ h1 h2]; exact h

theorem fallbackSummary_requiredKeys :
    ∀ k ∈ requiredKeys, (dGet fallbackSummary k).isSome = true := by decide

/-- Counterexample to C9 as stated: on the initialized path, a document
whose text contains no slide marker produces zero blocks, the merge of
zero block results is the empty dictionary, and the returned result lacks
the required key main_topic (it carries only weaknesses and
recommendations). -/
theorem c9_counterexample :
    "main_topic" ∈ requiredKeys ∧
    dGet (analyzeFullText true (fun _ => none) (fun _ => "") 5 "hello")
      "main_topic" = none := by
  exact ⟨by decide, by rfl⟩

/-- Claim C9 (amended): the uninitialized path always returns the
schema-complete fallback, and the initialized path returns a result
carrying every required key whenever the input yields at least one block;
the zero-block initialized path (no slide markers in the text) is the one
return path that omits required keys, as the counterexample shows. -/
theorem c9_schema_amended (parse : String → Option JValue)
    (llm : String → String) (slidesPerBlock : Nat) (text : String) :
    (∀ k ∈ requiredKeys,
      (dGet (analyzeFullText false parse llm slidesPerBlock text) k).isSome = true) ∧
    ((makeBlocks (reSplitSlideMarkerFull (normalizeFullText text))
        slidesPerBlock).isEmpty = false →
      ∀ k ∈ requiredKeys,
        (dGet (analyzeFullText true parse llm slidesPerBlock text) k).isSome = true) := by
  constructor
  · intro k hk
    show (dGet fallbackSummary k).isSome = true
    exact fallbackSummary_requiredKeys k hk
  · intro hb k hk
    have hred : analyzeFullText true parse llm slidesPerBlock text =
        (match attachSlideNumbersIfMissing?
            (mergeBlockResults
              ((makeBlocks (reSplitSlideMarkerFull (normalizeFullText text))
                slidesPerBlock).map
                (fun b => match tryParseJson parse (llm (buildPrompt b)) with
                  | some parsed => parsed
                  | none => fallbackSummary)))
            (normalizeFullText text) with
        | some d => d
        | none =>
          mergeBlockResults
            ((makeBlocks (reSplitSlideMarkerFull (normalizeFullText text))
              slidesPerBlock).map
              (fun b => match tryParseJson parse (llm (buildPrompt b)) with
                | some parsed => parsed
                | none => fallbackSummary))) := rfl
    rw [hred]
    cases hbl : makeBlocks (reSplitSlideMarkerFull (normalizeFullText text))
        slidesPerBlock with
    | nil => rw [hbl] at hb; exact absurd hb (by simp)
    | cons b0 bs =>
      have hkeys0 : (dGet (match tryParseJson parse (llm (buildPrompt b0)) with
          | some parsed => parsed
          | none => fallbackSummary) k).isSome = true := by
        cases hp : tryParseJson parse (llm (buildPrompt b0)) with
        | some parsed =>
          simpa using tryParseJson_requiredKeys _ _ _ hp k hk
        | none =>
          simpa using fallbackSummary_requiredKeys k hk
      have hcomb : (dGet (mergeBlockResults ((b0 :: bs).map
          (fun b => match tryParseJson parse (llm (buildPrompt b)) with
            | some parsed => parsed
            | none => fallbackSummary))) k).isSome = true := by
        rw [List.map_cons]
        exact isSome_dGet_mergeBlockResults _ _ _ hkeys0
      cases hat : attachSlideNumbersIfMissing?
          (mergeBlockResults ((b0 :: bs).map
            (fun b => match tryParseJson parse (llm (buildPrompt b)) with
              | some parsed => parsed
              | none => fallbackSummary)))
          (normalizeFullText text) with
      | none => simpa using hcomb
      | some d =>
        simp only
        unfold attachSlideNumbersIfMissing? at hat
        cases hsp : splitIntoSlides? (normalizeFullText text) with
        | none => rw [hsp] at hat; exact Option.noConfusion hat
        | some slides =>
          rw [hsp] at hat
          rw [show Option.map (attachCore (mergeBlockResults ((b0 :: bs).map
              (fun b => match tryParseJson parse (llm (buildPrompt b)) with
                | some parsed => parsed
                | none => fallbackSummary)))) (some slides) =
            some (attachCore (mergeBlockResults ((b0 :: bs).map
              (fun b => match tryParseJson parse (llm (buildPrompt b)) with
                | some parsed => parsed
                | none => fallbackSummary))) slides) from rfl] at hat
          injection hat with h3
          rw [← h3]
          exact isSome_dGet_attachCore _ _ _ hcomb
set_option maxHeartbeats 1000000 in
/-- Witness for the amended C9 at a one-slide document: both paths return
every required key. -/
theorem c9_schema_amended_witness :
    (makeBlocks (reSplitSlideMarkerFull
      (normalizeFullText "--- SLIDE 1 ---\nПример текста")) 5).isEmpty = false ∧
    (∀ k ∈ requiredKeys,
      (dGet (analyzeFullText false (fun _ => none) (fun _ => "") 5
        "--- SLIDE 1 ---\nПример текста") k).isSome = true) ∧
    (∀ k ∈ requiredKeys,
      (dGet (analyzeFullText true (fun _ => none) (fun _ => "") 5
        "--- SLIDE 1 ---\nПример текста") k).isSome = true) := by
  refine ⟨by rfl,
    (c9_schema_amended (fun _ => none) (fun _ => "") 5 _).1,
    (c9_schema_amended (fun _ => none) (fun _ => "") 5 _).2 (by rfl)⟩
end PraiReader
